import Mathlib

/-!
Verification of the entity metadata resolution and property marshaling engine
of the imodeljs backend (`source/backend/Entity.ts`).

The TypeScript code is shallowly embedded: JSON-shaped values become the
inductive `Val`, JavaScript objects become association lists with JS
assignment semantics (`getVal` / `setVal`), the class-metadata registry
becomes a finite map, and code that can throw returns `Except Err`.
-/

namespace IModelJs

/-- JSON-shaped runtime values, extended with the two marshaled value kinds the
engine produces: identifier values (`Id64`) and geometric points. Numbers are
modeled as integers; the marshaling rules under study never compute with them,
they only pass them through or copy coordinates. -/
inductive Val where
  | undef
  | jnull
  | jbool (b : Bool)
  | jnum (n : Int)
  | jstr (s : String)
  | jarr (elts : List Val)
  | jobj (fields : List (String × Val))
  | id64 (raw : Val)
  | pt2 (x y : Int)
  | pt3 (x y z : Int)
  deriving Repr

/-- JavaScript truthiness of a value: `undefined`, `null`, `false`, `0` and the
empty string are falsy, everything else (objects and arrays included) is
truthy. This is the test performed by `if (!jsonObj)` in `createProperty`. -/
def Val.truthy : Val → Bool
  | .undef => false
  | .jnull => false
  | .jbool b => b
  | .jnum n => n != 0
  | .jstr s => s != ""
  | _ => true

/-- Whether the value is a JavaScript array (the only `Val` shape that has a
callable `forEach` method). -/
def Val.isArr : Val → Bool
  | .jarr _ => true
  | _ => false

/-- Property read `o[k]` on a JavaScript object: the stored value, or
`undefined` when the key is missing. -/
def getVal : List (String × Val) → String → Val
  | [], _ => .undef
  | p :: rest, k => if p.1 == k then p.2 else getVal rest k

/-- Property write `o[k] = v` on a JavaScript object: an existing key keeps its
place and gets the new value, a new key is appended. -/
def setVal : List (String × Val) → String → Val → List (String × Val)
  | [], k, v => [(k, v)]
  | p :: rest, k, v => if p.1 == k then (k, v) :: rest else p :: setVal rest k v

/-- The errors the embedded code can raise. `metadataNotFound` is the error
built by `ClassRegistry.makeMetaDataNotFoundError`; `typeError` is the
JavaScript `TypeError` raised by calling `.forEach` on a non-array;
`fuelExhausted` marks a base-class chain longer than the recursion bound
(a cyclic chain diverges in the source, which guards cycles nowhere);
`immutabilityViolation` is the strict-mode error raised by writing a property
of a frozen object. -/
inductive Err where
  | metadataNotFound
  | typeError
  | fuelExhausted
  | immutabilityViolation
  deriving Repr

/-- The primitive types of an Entity property (`const enum PrimitiveTypeCode`). -/
inductive PrimitiveTypeCode where
  | uninit
  | binary
  | boolean
  | dateTime
  | double
  | integer
  | long
  | point2d
  | point3d
  | string
  deriving Repr

/-- The numeric value of each enum member, as declared in the source. -/
def PrimitiveTypeCode.toCode : PrimitiveTypeCode → Nat
  | .uninit => 0x00
  | .binary => 0x101
  | .boolean => 0x201
  | .dateTime => 0x301
  | .double => 0x401
  | .integer => 0x501
  | .long => 0x601
  | .point2d => 0x701
  | .point3d => 0x801
  | .string => 0x901

/-- A custom attribute instance. -/
structure CustomAttribute where
  ecclass : String
  properties : List (String × Val)
  deriving Repr

/-- Metadata for a property (`class PropertyMetaData`), as produced by its
constructor: fields the constructor guards with a null test are `Option`s that
are `none` when the JSON carried `null`/`undefined`; boolean flags collapse
JavaScript truthiness. `isCustomHandledOrphan` is declared but never assigned
by the constructor, so freshly parsed metadata has it falsy. -/
structure PropertyMetaData where
  primitiveType : Option PrimitiveTypeCode := none
  structName : Option String := none
  extendedType : Option String := none
  description : Option String := none
  displayLabel : Option String := none
  minimumValue : Option Val := none
  maximumValue : Option Val := none
  minimumLength : Option Nat := none
  maximumLength : Option Nat := none
  readOnly : Bool := false
  kindOfQuantity : Option String := none
  isCustomHandled : Bool := false
  isCustomHandledOrphan : Bool := false
  minOccurs : Option Nat := none
  maxOccurs : Option Nat := none
  direction : Option String := none
  relationshipClass : Option String := none
  customAttributes : List CustomAttribute := []
  deriving Repr

/-- Modelled from the spec: `Point2d.fromJSON` lives in the geometry package,
which is not under `src`; the spec says a 2D point primitive type "constructs
the corresponding geometric point value from the raw coordinate
representation". Object `\x7bx, y\x7d` and array `[x, y]` coordinate shapes are
read, an existing point is copied, and missing coordinates default to zero. -/
def point2dFromJSON (v : Val) : Val :=
  match v with
  | .pt2 x y => .pt2 x y
  | .jobj fields =>
    .pt2 (match getVal fields "x" with | .jnum n => n | _ => 0)
         (match getVal fields "y" with | .jnum n => n | _ => 0)
  | .jarr (.jnum x :: .jnum y :: _) => .pt2 x y
  | _ => .pt2 0 0

/-- Modelled from the spec: `Point3d.fromJSON` lives in the geometry package,
which is not under `src`; same reading as `point2dFromJSON`, with a third
coordinate. -/
def point3dFromJSON (v : Val) : Val :=
  match v with
  | .pt3 x y z => .pt3 x y z
  | .jobj fields =>
    .pt3 (match getVal fields "x" with | .jnum n => n | _ => 0)
         (match getVal fields "y" with | .jnum n => n | _ => 0)
         (match getVal fields "z" with | .jnum n => n | _ => 0)
  | .jarr (.jnum x :: .jnum y :: .jnum z :: _) => .pt3 x y z
  | _ => .pt3 0 0 0

/-- Modelled from the spec: the `Id64` class lives in the bentleyjs-core
package, which is not under `src`; the spec says navigation values "must be
marshaled as an identifier, not a primitive". Constructing an identifier from
a value that is already an identifier copies it. -/
def mkId64 : Val → Val
  | .id64 w => .id64 w
  | v => .id64 v

/-- `createValueOrArray`: apply a factory to the input, or — when `minOccurs`
is non-null — to every element of the input array. Calling `.forEach` on a
non-array input raises a `TypeError`. -/
def PropertyMetaData.createValueOrArray (m : PropertyMetaData) (func : Val → Val)
    (jsonObj : Val) : Except Err Val :=
  match m.minOccurs with
  | none => .ok (func jsonObj)
  | some _ =>
    match jsonObj with
    | .jarr elts => .ok (.jarr (elts.map func))
    | _ => .error Err.typeError

/-- `createProperty`: construct a single property value from an input object
according to this metadata. A falsy input yields `undefined`; a truthy
primitive-type tag dispatches the switch (whose four pass-through cases return
the input, whose point cases run the point factories, and whose remaining
cases fall through); after the switch, a non-null `direction` marks a
navigation property marshaled as an identifier; otherwise the raw value is
returned unchanged. -/
def PropertyMetaData.createProperty (m : PropertyMetaData) (jsonObj : Val) :
    Except Err Val :=
  if !jsonObj.truthy then .ok .undef else
  let primitive : Option (Except Err Val) :=
    match m.primitiveType with
    | some t =>
      if t.toCode = 0 then none
      else
        match t with
        | .boolean => some (.ok jsonObj)
        | .double => some (.ok jsonObj)
        | .integer => some (.ok jsonObj)
        | .string => some (.ok jsonObj)
        | .point2d => some (m.createValueOrArray point2dFromJSON jsonObj)
        | .point3d => some (m.createValueOrArray point3dFromJSON jsonObj)
        | _ => none
    | none => none
  match primitive with
  | some r => r
  | none =>
    match m.direction with
    | some _ => .ok (mkId64 jsonObj)
    | none => .ok jsonObj

/-- Metadata for an Entity (`class EntityMetaData`). `baseClasses` is the
ordered base-class-name list (the first entry is the true base class, later
entries are mixins); the field may be absent in the schema JSON, hence the
`Option`. `properties` maps property names to their metadata in the order the
schema JSON enumerates them (JavaScript object insertion order). -/
structure EntityMetaData where
  ecclass : String
  description : Option String := none
  modifier : Option String := none
  displayLabel : Option String := none
  baseClasses : Option (List String) := none
  customAttributes : List CustomAttribute := []
  properties : List (String × PropertyMetaData) := []
  deriving Repr

/-- The class-metadata registry reachable as `iModel.classMetaDataRegistry`:
a map from fully-qualified class name to class metadata. -/
structure Registry where
  entries : List (String × EntityMetaData)
  deriving Repr

/-- `classMetaDataRegistry.find(classFullName)`. -/
def Registry.find (reg : Registry) (classFullName : String) : Option EntityMetaData :=
  match reg.entries.find? (fun p => p.1 == classFullName) with
  | some p => some p.2
  | none => none

/-- The `for (const propName in meta.properties) if (propName) ...` loop body
of `forEach`: the properties visited on one class, in declaration order. The
empty property name is skipped, and a property is visited when
`includeCustom || !propMeta.isCustomHandled || propMeta.isCustomHandledOrphan`. -/
def EntityMetaData.visibleProps (meta : EntityMetaData) (includeCustom : Bool) :
    List (String × PropertyMetaData) :=
  meta.properties.filter
    (fun p => p.1 != "" && (includeCustom || !p.2.isCustomHandled || p.2.isCustomHandledOrphan))

/-- `EntityMetaData.forEach`: invoke a callback on each property of the named
class, optionally including superclass properties. The callback is modeled by
its observable behaviour, the ordered list of `(propName, propMeta)` visits.
A failed registry lookup throws the metadata-not-found error. When
`wantSuper` is true and the class declares at least one base class, the walk
recurses into `baseClasses[0]` only, with `wantSuper` forced true. The source
recursion has no cycle guard and diverges on a cyclic chain; the embedding
bounds it by `fuel` and reports `fuelExhausted` where the source would not
terminate. -/
def EntityMetaData.forEach (reg : Registry) :
    Nat → String → Bool → Bool → Except Err (List (String × PropertyMetaData))
  | fuel, classFullName, wantSuper, includeCustom =>
    match reg.find classFullName with
    | none => .error Err.metadataNotFound
    | some meta =>
      let own := meta.visibleProps includeCustom
      match wantSuper, meta.baseClasses with
      | true, some (b :: _) =>
        match fuel with
        | 0 => .error Err.fuelExhausted
        | n + 1 =>
          match EntityMetaData.forEach reg n b true includeCustom with
          | .ok rest => .ok (own ++ rest)
          | .error e => .error e
      | _, _ => .ok own

/-- The state of an `Entity` object: the owning `iModel` (whose
`classMetaDataRegistry` the entity uses), the runtime class identity
(the `classFullName` getter, an explicit field per the spec's abstraction
strategy), the dynamically assigned property slots, the `id` field, the
private `persistent` flag, and whether `Object.freeze` has been applied. -/
structure Entity where
  iModel : Registry
  classFullName : String
  slots : List (String × Val)
  id : Val
  persistent : Bool
  frozen : Bool
  deriving Repr

/-- The property-assignment loop of the `Entity` constructor: for each visited
property, `this[propName] = meta.createProperty(props[propName])`, in visit
order. A throw from `createProperty` aborts construction. -/
def assignProps (props : List (String × Val)) (slots : List (String × Val)) :
    List (String × PropertyMetaData) → Except Err (List (String × Val))
  | [] => .ok slots
  | (n, m) :: rest =>
    match m.createProperty (getVal props n) with
    | .error e => .error e
    | .ok v => assignProps props (setVal slots n v) rest

/-- The `Entity` constructor: store the owning model, then enumerate the
properties of the runtime class (`forEachProperty`, superclasses included,
custom-handled properties excluded) and marshal each bag value into its slot.
A new entity is not persistent and not frozen. -/
def Entity.construct (reg : Registry) (fuel : Nat) (classFullName : String)
    (props : List (String × Val)) : Except Err Entity :=
  match EntityMetaData.forEach reg fuel classFullName true false with
  | .error e => .error e
  | .ok visits =>
    match assignProps props [] visits with
    | .error e => .error e
    | .ok slots =>
      .ok { iModel := reg, classFullName := classFullName, slots := slots,
            id := .undef, persistent := false, frozen := false }

/-- The property-emitting loop of `toJSON`:
`val[propName] = this[propName]` for each visited property, in visit order,
starting from the accumulator that already holds `classFullName`. -/
def emitProps (slots : List (String × Val)) :
    List (String × PropertyMetaData) → List (String × Val) → List (String × Val)
  | [], acc => acc
  | p :: rest, acc => emitProps slots rest (setVal acc p.1 (getVal slots p.1))

/-- `Entity.toJSON`: emit `classFullName` plus every visible property's
in-memory value, using the same enumeration (`forEachProperty` with
superclasses, custom-handled excluded) as construction. -/
def Entity.toJSON (fuel : Nat) (e : Entity) : Except Err (List (String × Val)) :=
  match EntityMetaData.forEach e.iModel fuel e.classFullName true false with
  | .error err => .error err
  | .ok visits =>
    .ok (emitProps e.slots visits (setVal [] "classFullName" (.jstr e.classFullName)))

/-- `Entity.copyForEdit`: `new (this.constructor)(this)` — re-run the same
constructor of the same runtime class, feeding the current instance as the
property bag (property reads on the instance yield its slots). -/
def Entity.copyForEdit (fuel : Nat) (e : Entity) : Except Err Entity :=
  Entity.construct e.iModel fuel e.classFullName e.slots

/-- `Entity.setPersistent` applied to a not-yet-frozen entity:
`this.persistent = true; Object.freeze(this)`. -/
def Entity.setPersistent (e : Entity) : Entity :=
  { e with persistent := true, frozen := true }

/-- `Entity.isPersistent`. -/
def Entity.isPersistent (e : Entity) : Bool :=
  e.persistent

/-- The mutating operations on an entity object: writing a property slot,
writing the identifier, and `setPersistent` (which itself writes the
`persistent` property before freezing). -/
inductive EntityOp where
  | setSlot (n : String) (v : Val)
  | setId (v : Val)
  | setPersistent

/-- Modelled from the spec: `Object.freeze` is a JavaScript builtin, not
repository code. Per strict-mode semantics every property write on a frozen
object throws and changes nothing; the spec names this rejection
`ImmutabilityViolation`. On a non-frozen entity the three operations perform
their writes. The result pairs the object state after the attempt with the
error, if one was raised. -/
def Entity.applyOp (e : Entity) : EntityOp → Entity × Option Err
  | .setSlot n v =>
    if e.frozen then (e, some Err.immutabilityViolation)
    else ({ e with slots := setVal e.slots n v }, none)
  | .setId v =>
    if e.frozen then (e, some Err.immutabilityViolation)
    else ({ e with id := v }, none)
  | .setPersistent =>
    if e.frozen then (e, some Err.immutabilityViolation)
    else (e.setPersistent, none)

/-- Run a sequence of mutation attempts, keeping the object state across
failed attempts (a throw leaves the object as it was). -/
def runOps (e : Entity) : List EntityOp → Entity
  | [] => e
  | op :: rest => runOps (e.applyOp op).1 rest

/-- A fully resolvable, acyclic single-base chain: the metadata of the named
class, followed by the metadata of its first base class, and so on down to a
class that declares no base class. This is the hypothesis under which the
source recursion terminates. -/
inductive ResolvedChain (reg : Registry) : String → List EntityMetaData → Prop
  | last {c meta} : reg.find c = some meta →
      (meta.baseClasses = none ∨ meta.baseClasses = some []) →
      ResolvedChain reg c [meta]
  | step {c meta b bs ms} : reg.find c = some meta →
      meta.baseClasses = some (b :: bs) →
      ResolvedChain reg b ms →
      ResolvedChain reg c (meta :: ms)

/-- The visits `forEach` performs along a chain: each class's visible
properties in order, most-derived class first. -/
def chainVisits (includeCustom : Bool) : List EntityMetaData → List (String × PropertyMetaData)
  | [] => []
  | m :: ms => m.visibleProps includeCustom ++ chainVisits includeCustom ms

/-- The metadata of the last visit carrying a given property name, if any. -/
def lastDecl (n : String) : List (String × PropertyMetaData) → Option PropertyMetaData
  | [] => none
  | p :: rest =>
    match lastDecl n rest with
    | some m => some m
    | none => if p.1 == n then some p.2 else none

/-- The visits of one property name, grouped per declaring class along the
chain (used to state that a shadowed name is visited once per declaring
class, with that class's own metadata). -/
def perClassFilter (n : String) : List EntityMetaData → List (String × PropertyMetaData)
  | [] => []
  | m :: ms => ((m.visibleProps false).filter (fun p => p.1 == n)) ++ perClassFilter n ms

/-- The primitive-type tags for which the `createProperty` switch has a case
that returns (a truthy tag with one of the six listed cases). For every other
tag control falls through to the navigation test. -/
def primHandled : Option PrimitiveTypeCode → Bool
  | some .boolean => true
  | some .double => true
  | some .integer => true
  | some .string => true
  | some .point2d => true
  | some .point3d => true
  | _ => false

/-- Example property metadata used by the concrete check cases below. -/
def pmInteger : PropertyMetaData := { primitiveType := some .integer }

def pmString : PropertyMetaData := { primitiveType := some .string }

def pmBoolean : PropertyMetaData := { primitiveType := some .boolean }

def pmNav : PropertyMetaData := { direction := some "forward" }

def pmCustom : PropertyMetaData := { primitiveType := some .string, isCustomHandled := true }

def pmPt3Seq : PropertyMetaData := { primitiveType := some .point3d, minOccurs := some 0 }

def pmPt3 : PropertyMetaData := { primitiveType := some .point3d }

/-- Example schema: `S:Derived` has true base `S:Base` and mixin `S:Mixin`;
the name `p` is declared on both `S:Derived` (string) and `S:Base`
(navigation), and `ch` is custom-handled. -/
def metaBase : EntityMetaData :=
  { ecclass := "Base", properties := [("bp", pmString), ("p", pmNav)] }

def metaMixin : EntityMetaData :=
  { ecclass := "Mixin", properties := [("mix", pmInteger)] }

def metaDerived : EntityMetaData :=
  { ecclass := "Derived", baseClasses := some ["S:Base", "S:Mixin"],
    properties := [("dp", pmInteger), ("p", pmString), ("ch", pmCustom)] }

def exReg : Registry :=
  ⟨[("S:Derived", metaDerived), ("S:Base", metaBase), ("S:Mixin", metaMixin)]⟩

/-- Example schema where the name `p` is a point sequence on `S:PD` and a
scalar point on its base `S:PB`. -/
def metaPtBase : EntityMetaData := { ecclass := "PB", properties := [("p", pmPt3)] }

def metaPtDerived : EntityMetaData :=
  { ecclass := "PD", baseClasses := some ["S:PB"], properties := [("p", pmPt3Seq)] }

def exRegPts : Registry := ⟨[("S:PD", metaPtDerived), ("S:PB", metaPtBase)]⟩

/-- Example schema with a single class carrying one boolean property. -/
def metaFlag : EntityMetaData := { ecclass := "F", properties := [("flag", pmBoolean)] }

def exRegFlag : Registry := ⟨[("S:F", metaFlag)]⟩

/-- The entity built by `Entity.construct exReg 1 "S:Derived" [("p", .jstr "0x5")]`:
the final `p` slot holds the marshaling of the base-most declaration (the
navigation metadata of `S:Base`). -/
def exEntity10 : Entity :=
  ⟨exReg, "S:Derived", [("dp", .undef), ("p", .id64 (.jstr "0x5")), ("bp", .undef)],
   .undef, false, false⟩

/-- The entity built by `Entity.construct exReg 1 "S:Derived" [("dp", .jnum 1)]`. -/
def exEntityW : Entity :=
  ⟨exReg, "S:Derived", [("dp", .jnum 1), ("p", .undef), ("bp", .undef)],
   .undef, false, false⟩

/-- The serialization `exEntityW.toJSON 1` produces. -/
def exJsonW : List (String × Val) :=
  [("classFullName", .jstr "S:Derived"), ("dp", .jnum 1), ("p", .undef), ("bp", .undef)]

/-- The entity built by `Entity.construct exRegPts 1 "S:PD" [("p", .jarr [])]`. -/
def exEntityPt : Entity :=
  ⟨exRegPts, "S:PD", [("p", .pt3 0 0 0)], .undef, false, false⟩

/-- The serialization `exEntityPt.toJSON 1` produces. -/
def exJsonPt : List (String × Val) :=
  [("classFullName", .jstr "S:PD"), ("p", .pt3 0 0 0)]

/-- The entity built by `Entity.construct exRegFlag 0 "S:F" [("flag", .jbool true)]`. -/
def exFlagEntity : Entity :=
  ⟨exRegFlag, "S:F", [("flag", .jbool true)], .undef, false, false⟩

/-- `exFlagEntity` after its boolean slot is edited to `false` and the entity
is then made persistent. -/
def exFlagPersisted : Entity :=
  ⟨exRegFlag, "S:F", [("flag", .jbool false)], .undef, true, true⟩

/-- The entity `exFlagPersisted.copyForEdit` produces: re-marshaling the raw
`false` slot value collapses it to `undefined`. -/
def exFlagCopy : Entity :=
  ⟨exRegFlag, "S:F", [("flag", .undef)], .undef, false, false⟩

theorem getVal_setVal_self (o : List (String × Val)) (k : String) (v : Val) :
    getVal (setVal o k v) k = v := by
  induction o with
  | nil => simp [setVal, getVal]
  | cons p rest ih =>
    by_cases h : p.1 = k
    · simp [setVal, getVal, h]
    · simp [setVal, getVal, h, ih]

theorem getVal_setVal_ne (o : List (String × Val)) {k k' : String} (v : Val)
    (h : k ≠ k') : getVal (setVal o k v) k' = getVal o k' := by
  induction o with
  | nil => simp [setVal, getVal, h]
  | cons p rest ih =>
    by_cases hp : p.1 = k
    · simp [setVal, getVal, hp, h]
    · by_cases hp' : p.1 = k'
      · simp [setVal, getVal, hp, hp', Ne.symm h]
      · simp [setVal, getVal, hp, hp', ih]

theorem resolvedChain_ne_nil {reg : Registry} {c : String} {ms : List EntityMetaData}
    (h : ResolvedChain reg c ms) : ms ≠ [] := by
  cases h <;> simp

/-- `forEach` on a resolvable acyclic chain, with enough fuel, visits exactly
the visible properties of the chain's classes, most-derived first. -/
theorem forEach_resolvedChain {reg : Registry} {c : String} {ms : List EntityMetaData}
    (ic : Bool) (h : ResolvedChain reg c ms) :
    ∀ fuel : Nat, ms.length ≤ fuel + 1 →
      EntityMetaData.forEach reg fuel c true ic = .ok (chainVisits ic ms) := by
  induction h with
  | last hfind hbase =>
    intro fuel _
    unfold EntityMetaData.forEach
    rcases hbase with hb | hb <;>
      simp [hfind, hb, chainVisits]
  | step hfind hbase htail ih =>
    intro fuel hlen
    have htne := resolvedChain_ne_nil htail
    have hpos := List.length_pos.mpr htne
    simp only [List.length_cons] at hlen
    cases fuel with
    | zero => omega
    | succ n =>
      have hrest := ih n (by omega)
      unfold EntityMetaData.forEach
      simp [hfind, hbase, hrest, chainVisits]

/-- A name that is never visited keeps whatever the slot store held before
the assignment loop. -/
theorem assignProps_getVal_none {props : List (String × Val)} {n : String} :
    ∀ {visits : List (String × PropertyMetaData)} {slots0 slots : List (String × Val)},
      assignProps props slots0 visits = .ok slots →
      lastDecl n visits = none →
      getVal slots n = getVal slots0 n := by
  intro visits
  induction visits with
  | nil =>
    intro slots0 slots hrun _
    simp [assignProps] at hrun
    simp [hrun]
  | cons p rest ih =>
    intro slots0 slots hrun hlast
    simp only [assignProps] at hrun
    rcases hcp : p.2.createProperty (getVal props p.1) with e | v <;> rw [hcp] at hrun
    · exact absurd hrun (by simp)
    · simp only [lastDecl] at hlast
      rcases hld : lastDecl n rest with _ | m <;> rw [hld] at hlast
      · have hne : p.1 ≠ n := by
          by_contra hcontra
          simp [hcontra] at hlast
        rw [ih hrun hld, getVal_setVal_ne _ _ hne]
      · exact absurd hlast (by simp)

/-- After the assignment loop, a visited name holds the marshaled bag value of
its last visit — later visits overwrite earlier ones, so the base-most
declaring class's metadata decides the final slot value. -/
theorem assignProps_getVal_last {props : List (String × Val)} {n : String} :
    ∀ {visits : List (String × PropertyMetaData)} {slots0 slots : List (String × Val)}
      {m : PropertyMetaData},
      assignProps props slots0 visits = .ok slots →
      lastDecl n visits = some m →
      ∃ w, m.createProperty (getVal props n) = .ok w ∧ getVal slots n = w := by
  intro visits
  induction visits with
  | nil =>
    intro slots0 slots m _ hlast
    simp [lastDecl] at hlast
  | cons p rest ih =>
    intro slots0 slots m hrun hlast
    simp only [assignProps] at hrun
    rcases hcp : p.2.createProperty (getVal props p.1) with e | v <;> rw [hcp] at hrun
    · exact absurd hrun (by simp)
    · simp only [lastDecl] at hlast
      rcases hld : lastDecl n rest with _ | m' <;> rw [hld] at hlast
      · by_cases heq : p.1 = n
        · simp only [heq, beq_self_eq_true, if_true, Option.some.injEq] at hlast
          subst hlast
          subst heq
          refine ⟨v, hcp, ?_⟩
          rw [assignProps_getVal_none hrun hld, getVal_setVal_self]
        · simp [heq] at hlast
      · simp only [Option.some.injEq] at hlast
        subst hlast
        exact ih hrun hld

/-- Every visited name has a last declaration. -/
theorem lastDecl_some_of_mem {n : String} :
    ∀ {visits : List (String × PropertyMetaData)},
      n ∈ visits.map Prod.fst → ∃ m, lastDecl n visits = some m := by
  intro visits
  induction visits with
  | nil => intro h; simp at h
  | cons p rest ih =>
    intro hmem
    simp only [lastDecl]
    rcases hld : lastDecl n rest with _ | m'
    · simp only [List.map_cons, List.mem_cons] at hmem
      rcases hmem with heq | hmem

      · exact ⟨p.2, by simp [heq.symm]⟩
      · rcases ih hmem with ⟨m, hm⟩
        rw [hm] at hld
        exact absurd hld (by simp)
    · exact ⟨m', rfl⟩

/-- A name with a last declaration occurs among the visited names. -/
theorem mem_of_lastDecl_some {n : String} :
    ∀ {visits : List (String × PropertyMetaData)} {m : PropertyMetaData},
      lastDecl n visits = some m → n ∈ visits.map Prod.fst := by
  intro visits
  induction visits with
  | nil => intro m h; simp [lastDecl] at h
  | cons p rest ih =>
    intro m h
    simp only [lastDecl] at h
    rcases hld : lastDecl n rest with _ | mr <;> rw [hld] at h
    · by_cases heq : p.1 = n
      · simp [heq]
      · simp [heq] at h
    · simp [ih hld]

theorem mkId64_idem (v : Val) : mkId64 (mkId64 v) = mkId64 v := by
  cases v <;> rfl

theorem mkId64_truthy (v : Val) : (mkId64 v).truthy = true := by
  cases v <;> rfl

theorem point2dFromJSON_shape (v : Val) : ∃ a b, point2dFromJSON v = .pt2 a b := by
  unfold point2dFromJSON
  split <;> exact ⟨_, _, rfl⟩

theorem point3dFromJSON_shape (v : Val) : ∃ a b c, point3dFromJSON v = .pt3 a b c := by
  unfold point3dFromJSON
  split <;> exact ⟨_, _, _, rfl⟩

theorem point2dFromJSON_idem (v : Val) :
    point2dFromJSON (point2dFromJSON v) = point2dFromJSON v := by
  rcases point2dFromJSON_shape v with ⟨a, b, h⟩
  rw [h]
  rfl

theorem point3dFromJSON_idem (v : Val) :
    point3dFromJSON (point3dFromJSON v) = point3dFromJSON v := by
  rcases point3dFromJSON_shape v with ⟨a, b, c, h⟩
  rw [h]
  rfl

theorem point2dFromJSON_truthy (v : Val) : (point2dFromJSON v).truthy = true := by
  rcases point2dFromJSON_shape v with ⟨a, b, h⟩
  rw [h]
  rfl

theorem point3dFromJSON_truthy (v : Val) : (point3dFromJSON v).truthy = true := by
  rcases point3dFromJSON_shape v with ⟨a, b, c, h⟩
  rw [h]
  rfl

theorem createProperty_falsy {m : PropertyMetaData} {v : Val} (h : v.truthy = false) :
    m.createProperty v = .ok .undef := by
  unfold PropertyMetaData.createProperty
  simp [h]

theorem createProperty_prim_pass {m : PropertyMetaData} {v : Val} {t : PrimitiveTypeCode}
    (hp : m.primitiveType = some t)
    (ht : t = .boolean ∨ t = .double ∨ t = .integer ∨ t = .string)
    (hv : v.truthy = true) :
    m.createProperty v = .ok v := by
  unfold PropertyMetaData.createProperty
  rcases ht with rfl | rfl | rfl | rfl <;>
    simp [hv, hp, PrimitiveTypeCode.toCode]

theorem createProperty_point2d {m : PropertyMetaData} {v : Val}
    (hp : m.primitiveType = some .point2d) (hv : v.truthy = true) :
    m.createProperty v = m.createValueOrArray point2dFromJSON v := by
  unfold PropertyMetaData.createProperty
  simp [hv, hp, PrimitiveTypeCode.toCode]

theorem createProperty_point3d {m : PropertyMetaData} {v : Val}
    (hp : m.primitiveType = some .point3d) (hv : v.truthy = true) :
    m.createProperty v = m.createValueOrArray point3dFromJSON v := by
  unfold PropertyMetaData.createProperty
  simp [hv, hp, PrimitiveTypeCode.toCode]

theorem createProperty_noPrim {m : PropertyMetaData} {v : Val}
    (hp : primHandled m.primitiveType = false) (hv : v.truthy = true) :
    m.createProperty v =
      (match m.direction with
       | some _ => .ok (mkId64 v)
       | none => .ok v) := by
  unfold PropertyMetaData.createProperty
  rcases hpt : m.primitiveType with _ | t
  · simp [hv]
  · rw [hpt] at hp
    cases t <;> simp_all [primHandled, PrimitiveTypeCode.toCode, hv]

theorem map_point2dFromJSON_idem (elts : List Val) :
    (elts.map point2dFromJSON).map point2dFromJSON = elts.map point2dFromJSON := by
  induction elts with
  | nil => rfl
  | cons x xs ih => simp [point2dFromJSON_idem, ih]

theorem map_point3dFromJSON_idem (elts : List Val) :
    (elts.map point3dFromJSON).map point3dFromJSON = elts.map point3dFromJSON := by
  induction elts with
  | nil => rfl
  | cons x xs ih => simp [point3dFromJSON_idem, ih]

/-- Marshaling is idempotent: re-marshaling a value `createProperty` produced
under the same metadata returns it unchanged. -/
theorem createProperty_idem {m : PropertyMetaData} {v w : Val}
    (h : m.createProperty v = .ok w) : m.createProperty w = .ok w := by
  by_cases hv : v.truthy = true
  case neg =>
    have hv' : v.truthy = false := by
      cases hvv : v.truthy
      · rfl
      · exact absurd hvv hv
    rw [createProperty_falsy hv'] at h
    simp only [Except.ok.injEq] at h
    subst h
    exact createProperty_falsy rfl
  case pos =>
    by_cases hph : primHandled m.primitiveType = true
    case neg =>
      have hph' : primHandled m.primitiveType = false := by
        cases hh : primHandled m.primitiveType
        · rfl
        · exact absurd hh hph
      rw [createProperty_noPrim hph' hv] at h
      rcases hd : m.direction with _ | d <;> rw [hd] at h <;>
        simp only [Except.ok.injEq] at h <;> subst h
      · rw [createProperty_noPrim hph' hv, hd]
      · rw [createProperty_noPrim hph' (mkId64_truthy v), hd, mkId64_idem]
    case pos =>
      rcases hpt : m.primitiveType with _ | t
      · rw [hpt] at hph
        simp [primHandled] at hph
      · cases t
        case boolean =>
          rw [createProperty_prim_pass hpt (by simp) hv] at h
          simp only [Except.ok.injEq] at h
          subst h
          exact createProperty_prim_pass hpt (by simp) hv
        case double =>
          rw [createProperty_prim_pass hpt (by simp) hv] at h
          simp only [Except.ok.injEq] at h
          subst h
          exact createProperty_prim_pass hpt (by simp) hv
        case integer =>
          rw [createProperty_prim_pass hpt (by simp) hv] at h
          simp only [Except.ok.injEq] at h
          subst h
          exact createProperty_prim_pass hpt (by simp) hv
        case string =>
          rw [createProperty_prim_pass hpt (by simp) hv] at h
          simp only [Except.ok.injEq] at h
          subst h
          exact createProperty_prim_pass hpt (by simp) hv
        case point2d =>
          rw [createProperty_point2d hpt hv] at h
          unfold PropertyMetaData.createValueOrArray at h
          rcases hmo : m.minOccurs with _ | k <;> rw [hmo] at h
          · simp only [Except.ok.injEq] at h
            subst h
            rw [createProperty_point2d hpt (point2dFromJSON_truthy v)]
            unfold PropertyMetaData.createValueOrArray
            rw [hmo, point2dFromJSON_idem]
          · cases v
            case jarr elts =>
              simp only [Except.ok.injEq] at h
              subst h
              rw [createProperty_point2d hpt
                (show (Val.jarr (elts.map point2dFromJSON)).truthy = true from rfl)]
              unfold PropertyMetaData.createValueOrArray
              rw [hmo]
              simp [point2dFromJSON_idem]
            all_goals exact Except.noConfusion h
        case point3d =>
          rw [createProperty_point3d hpt hv] at h
          unfold PropertyMetaData.createValueOrArray at h
          rcases hmo : m.minOccurs with _ | k <;> rw [hmo] at h
          · simp only [Except.ok.injEq] at h
            subst h
            rw [createProperty_point3d hpt (point3dFromJSON_truthy v)]
            unfold PropertyMetaData.createValueOrArray
            rw [hmo, point3dFromJSON_idem]
          · cases v
            case jarr elts =>
              simp only [Except.ok.injEq] at h
              subst h
              rw [createProperty_point3d hpt
                (show (Val.jarr (elts.map point3dFromJSON)).truthy = true from rfl)]
              unfold PropertyMetaData.createValueOrArray
              rw [hmo]
              simp [point3dFromJSON_idem]
            all_goals exact Except.noConfusion h
        all_goals
          rw [hpt] at hph
          simp [primHandled] at hph

/-- Two slot stores that agree on every visited name produce the same
serialization. -/
theorem emitProps_congr {s1 s2 : List (String × Val)} :
    ∀ {visits : List (String × PropertyMetaData)} {acc : List (String × Val)},
      (∀ p ∈ visits, getVal s1 p.1 = getVal s2 p.1) →
      emitProps s1 visits acc = emitProps s2 visits acc := by
  intro visits
  induction visits with
  | nil => intro acc _; rfl
  | cons p rest ih =>
    intro acc hagree
    simp only [emitProps]
    rw [hagree p (by simp)]
    exact ih (fun q hq => hagree q (by simp [hq]))

theorem getVal_emitProps_not_mem {s : List (String × Val)} {n : String} :
    ∀ {visits : List (String × PropertyMetaData)} {acc : List (String × Val)},
      n ∉ visits.map Prod.fst →
      getVal (emitProps s visits acc) n = getVal acc n := by
  intro visits
  induction visits with
  | nil => intro acc _; rfl
  | cons p rest ih =>
    intro acc hmem
    simp only [List.map_cons, List.mem_cons, not_or] at hmem
    simp only [emitProps]
    rw [ih (by simp [hmem.2]), getVal_setVal_ne _ _ (fun hh => hmem.1 hh.symm)]

/-- Serialization copies the slot value of every visited name. -/
theorem getVal_emitProps_mem {s : List (String × Val)} {n : String} :
    ∀ {visits : List (String × PropertyMetaData)} {acc : List (String × Val)},
      n ∈ visits.map Prod.fst →
      getVal (emitProps s visits acc) n = getVal s n := by
  intro visits
  induction visits with
  | nil => intro acc h; simp at h
  | cons p rest ih =>
    intro acc hmem
    simp only [emitProps]
    by_cases hmem' : n ∈ rest.map Prod.fst
    · exact ih hmem'
    · have hn : p.1 = n := by
        simp only [List.map_cons, List.mem_cons] at hmem
        rcases hmem with h | h
        · exact h.symm
        · exact absurd h hmem'
      rw [getVal_emitProps_not_mem hmem', hn, getVal_setVal_self]

theorem applyOp_frozen {e : Entity} (h : e.frozen = true) (op : EntityOp) :
    e.applyOp op = (e, some Err.immutabilityViolation) := by
  cases op <;> simp [Entity.applyOp, h]

theorem runOps_frozen {e : Entity} (h : e.frozen = true) :
    ∀ ops : List EntityOp, runOps e ops = e := by
  intro ops
  induction ops with
  | nil => rfl
  | cons op rest ih =>
    rw [runOps, applyOp_frozen h op]
    exact ih

theorem forEach_find_none {reg : Registry} {c : String} (h : reg.find c = none)
    (fuel : Nat) (ws ic : Bool) :
    EntityMetaData.forEach reg fuel c ws ic = .error Err.metadataNotFound := by
  unfold EntityMetaData.forEach
  simp [h]

theorem chainVisits_filter (n : String) :
    ∀ ms : List EntityMetaData,
      (chainVisits false ms).filter (fun p => p.1 == n) = perClassFilter n ms := by
  intro ms
  induction ms with
  | nil => rfl
  | cons m rest ih => simp [chainVisits, perClassFilter, List.filter_append, ih]

/-- Claim C1: for a class whose metadata is resolvable and whose single-base
chain is acyclic, `forEach` with `includeSuper = true` visits the visible
properties of the class itself first, then those of its first base class, and
so on down the chain; only `baseClasses[0]` is recursed into (mixin properties
never appear) and the recursive call keeps `includeSuperProperties = true`,
which is why every class of the chain contributes. -/
theorem forEach_visits_single_base_chain {reg : Registry} {c : String}
    {ms : List EntityMetaData} (ic : Bool) (fuel : Nat)
    (h : ResolvedChain reg c ms) (hfuel : ms.length ≤ fuel + 1) :
    EntityMetaData.forEach reg fuel c true ic = .ok (chainVisits ic ms) :=
  forEach_resolvedChain ic h fuel hfuel

theorem forEach_visits_single_base_chain_witness :
    ResolvedChain exReg "S:Derived" [metaDerived, metaBase]
    ∧ ([metaDerived, metaBase] : List EntityMetaData).length ≤ 1 + 1
    ∧ EntityMetaData.forEach exReg 1 "S:Derived" true false =
        .ok [("dp", pmInteger), ("p", pmString), ("bp", pmString), ("p", pmNav)] := by
  have hchain : ResolvedChain exReg "S:Derived" [metaDerived, metaBase] :=
    .step rfl rfl (.last rfl (Or.inl rfl))
  refine ⟨hchain, by simp, ?_⟩
  rw [forEach_visits_single_base_chain false 1 hchain (by simp)]
  rfl

/-- Claim C2: after `setPersistent` the entity is permanently immutable —
every property-slot or identifier write attempt fails with the immutability
violation, no sequence of mutation attempts changes the state or any readable
slot value, reads still see the pre-freeze values, and `isPersistent` stays
true forever (the transition is one-way). -/
theorem setPersistent_freezes_forever (e : Entity) (ops : List EntityOp)
    (n : String) (v : Val) :
    (e.setPersistent).isPersistent = true
    ∧ runOps e.setPersistent ops = e.setPersistent
    ∧ (runOps e.setPersistent ops).isPersistent = true
    ∧ (∀ k, getVal (runOps e.setPersistent ops).slots k = getVal e.slots k)
    ∧ ((e.setPersistent).applyOp (.setSlot n v)).2 = some Err.immutabilityViolation
    ∧ ((e.setPersistent).applyOp (.setId v)).2 = some Err.immutabilityViolation
    ∧ ((e.setPersistent).applyOp .setPersistent).2 = some Err.immutabilityViolation := by
  have hz : (e.setPersistent).frozen = true := rfl
  have hrun := runOps_frozen hz ops
  refine ⟨rfl, hrun, by rw [hrun]; rfl, fun k => by rw [hrun]; rfl, rfl, rfl, rfl⟩

/-- Claim C7: when the registry cannot resolve a class name, `forEach` raises
the metadata-not-found error, and entity construction and serialization fail
with the same propagated error — nothing is swallowed and no partial
enumeration or placeholder is produced. -/
theorem metadataNotFound_fatal (reg : Registry) (c : String)
    (h : reg.find c = none) :
    (∀ fuel ws ic, EntityMetaData.forEach reg fuel c ws ic = .error Err.metadataNotFound)
    ∧ (∀ fuel props, Entity.construct reg fuel c props = .error Err.metadataNotFound)
    ∧ (∀ fuel e, e.iModel = reg → e.classFullName = c →
        Entity.toJSON fuel e = .error Err.metadataNotFound) := by
  refine ⟨fun fuel ws ic => forEach_find_none h fuel ws ic,
          fun fuel props => ?_, fun fuel e hi hc => ?_⟩
  · unfold Entity.construct
    rw [forEach_find_none h fuel true false]
  · unfold Entity.toJSON
    rw [hi, hc, forEach_find_none h fuel true false]

theorem metadataNotFound_fatal_witness :
    Registry.find ⟨[]⟩ "T:Missing" = none
    ∧ EntityMetaData.forEach ⟨[]⟩ 3 "T:Missing" true false = .error Err.metadataNotFound
    ∧ Entity.construct ⟨[]⟩ 3 "T:Missing" [] = .error Err.metadataNotFound
    ∧ Entity.toJSON 3 ⟨⟨[]⟩, "T:Missing", [], .undef, false, false⟩ =
        .error Err.metadataNotFound := by
  have h := metadataNotFound_fatal ⟨[]⟩ "T:Missing" rfl
  exact ⟨rfl, h.1 3 true false, h.2.1 3 [], h.2.2 3 _ rfl rfl⟩

/-- Claim C4 counterexample: the boolean `false` is a present raw value for a
boolean-typed property, yet `createProperty` returns `undefined` instead of
the value itself, because the absence guard `if (!jsonObj)` tests JavaScript
truthiness rather than null-ness. -/
theorem createProperty_false_value_cex :
    pmBoolean.createProperty (.jbool false) = .ok .undef
    ∧ pmBoolean.createProperty (.jbool false) ≠ .ok (.jbool false) := by
  have h0 : pmBoolean.createProperty (.jbool false) = .ok .undef := rfl
  refine ⟨h0, ?_⟩
  rw [h0]
  simp

/-- Claim C4 (amended): for boolean/double/integer/string primitive types,
every truthy present raw value is returned unchanged; every falsy raw value —
absent or `null`, but also the present values `false`, `0` and the empty
string — yields `undefined` rather than an error. -/
theorem createProperty_handled_prim_scalar (m : PropertyMetaData) (v : Val)
    (t : PrimitiveTypeCode) (hpt : m.primitiveType = some t)
    (ht : t = .boolean ∨ t = .double ∨ t = .integer ∨ t = .string) :
    (v.truthy = true → m.createProperty v = .ok v)
    ∧ (v.truthy = false → m.createProperty v = .ok .undef) :=
  ⟨fun hv => createProperty_prim_pass hpt ht hv, fun hv => createProperty_falsy hv⟩

theorem createProperty_handled_prim_scalar_witness :
    pmString.createProperty (.jstr "a") = .ok (.jstr "a")
    ∧ pmBoolean.createProperty .jnull = .ok .undef := by
  have h1 := createProperty_handled_prim_scalar pmString (.jstr "a") .string rfl (by simp)
  have h2 := createProperty_handled_prim_scalar pmBoolean .jnull .boolean rfl (by simp)
  exact ⟨h1.1 rfl, h2.2 rfl⟩

/-- Claim C5 counterexample: metadata with an occurrence bound and a
navigation direction — `createProperty` does not convert the array
element-wise; the whole raw array is wrapped in a single identifier, because
the element-wise path exists only inside the point-typed branches. -/
theorem createProperty_nav_sequence_cex :
    PropertyMetaData.createProperty { minOccurs := some 0, direction := some "forward" }
        (.jarr [.jstr "0x1", .jstr "0x2"]) =
      .ok (.id64 (.jarr [.jstr "0x1", .jstr "0x2"]))
    ∧ Val.id64 (.jarr [.jstr "0x1", .jstr "0x2"]) ≠
        .jarr [.id64 (.jstr "0x1"), .id64 (.jstr "0x2")] := by
  exact ⟨rfl, by simp⟩

/-- Claim C5 (amended): sequence treatment keys on `minOccurs` alone
(`maxOccurs` alone is ignored) and exists only in the point-typed conversion
branches: with `minOccurs` present and a point primitive type, an array raw
value is converted element-wise preserving order; with `minOccurs` absent the
point conversion applies to the raw value as one scalar; the four handled
scalar primitive types pass a truthy raw value through unchanged regardless
of occurrence bounds. -/
theorem createProperty_sequence_rule (m : PropertyMetaData) (elts : List Val) (v : Val) :
    (m.minOccurs ≠ none → m.primitiveType = some .point2d →
      m.createProperty (.jarr elts) = .ok (.jarr (elts.map point2dFromJSON)))
    ∧ (m.minOccurs ≠ none → m.primitiveType = some .point3d →
      m.createProperty (.jarr elts) = .ok (.jarr (elts.map point3dFromJSON)))
    ∧ (m.minOccurs = none → m.primitiveType = some .point2d → v.truthy = true →
      m.createProperty v = .ok (point2dFromJSON v))
    ∧ (m.minOccurs = none → m.primitiveType = some .point3d → v.truthy = true →
      m.createProperty v = .ok (point3dFromJSON v))
    ∧ (∀ t, m.primitiveType = some t →
        (t = .boolean ∨ t = .double ∨ t = .integer ∨ t = .string) →
        v.truthy = true → m.createProperty v = .ok v) := by
  refine ⟨?_, ?_, ?_, ?_, fun t hpt ht hv => createProperty_prim_pass hpt ht hv⟩
  · intro hmo hpt
    rw [createProperty_point2d hpt (show (Val.jarr elts).truthy = true from rfl)]
    unfold PropertyMetaData.createValueOrArray
    rcases hm : m.minOccurs with _ | k
    · exact absurd hm hmo
    · simp only [hm]
  · intro hmo hpt
    rw [createProperty_point3d hpt (show (Val.jarr elts).truthy = true from rfl)]
    unfold PropertyMetaData.createValueOrArray
    rcases hm : m.minOccurs with _ | k
    · exact absurd hm hmo
    · simp only [hm]
  · intro hmo hpt hv
    rw [createProperty_point2d hpt hv]
    unfold PropertyMetaData.createValueOrArray
    simp only [hmo]
  · intro hmo hpt hv
    rw [createProperty_point3d hpt hv]
    unfold PropertyMetaData.createValueOrArray
    simp only [hmo]

theorem createProperty_sequence_rule_witness :
    pmPt3Seq.createProperty
        (.jarr [.jobj [("x", .jnum 1), ("y", .jnum 2), ("z", .jnum 3)],
                .jobj [("x", .jnum 4), ("y", .jnum 5), ("z", .jnum 6)]]) =
      .ok (.jarr [.pt3 1 2 3, .pt3 4 5 6])
    ∧ pmPt3.createProperty (.jobj [("x", .jnum 1), ("y", .jnum 2), ("z", .jnum 3)]) =
      .ok (.pt3 1 2 3) := by
  have h1 := createProperty_sequence_rule pmPt3Seq
      [.jobj [("x", .jnum 1), ("y", .jnum 2), ("z", .jnum 3)],
       .jobj [("x", .jnum 4), ("y", .jnum 5), ("z", .jnum 6)]] .undef
  have h2 := createProperty_sequence_rule pmPt3 []
      (.jobj [("x", .jnum 1), ("y", .jnum 2), ("z", .jnum 3)])
  refine ⟨?_, ?_⟩
  · rw [h1.2.1 (by simp [pmPt3Seq]) rfl]
    rfl
  · rw [h2.2.2.2.1 rfl rfl rfl]
    rfl

/-- Claim C6 counterexample: marshaling does throw — metadata with a point
primitive type and an occurrence bound applied to a truthy non-array raw
value raises a type error (`jsonObj.forEach` is not a function) instead of
falling back to passthrough. -/
theorem createProperty_point_sequence_throws_cex :
    pmPt3Seq.createProperty (.jnum 5) = .error Err.typeError := rfl

/-- Claim C6 (amended): `createProperty` never throws except in the
point-sequence corner: whenever `minOccurs` is absent, or the raw value is an
array, or the raw value is falsy, or the primitive type is not a point type,
marshaling returns a value; and when no conversion rule matches (primitive
type absent or unhandled, no navigation direction), a truthy raw value is
returned unchanged as the last-resort passthrough. -/
theorem createProperty_no_throw_unless_point_sequence (m : PropertyMetaData) (v : Val) :
    (m.minOccurs = none ∨ v.isArr = true ∨ v.truthy = false
      ∨ (m.primitiveType ≠ some .point2d ∧ m.primitiveType ≠ some .point3d) →
      ∃ w, m.createProperty v = .ok w)
    ∧ (primHandled m.primitiveType = false → m.direction = none → v.truthy = true →
      m.createProperty v = .ok v) := by
  constructor
  · intro hsafe
    by_cases hv : v.truthy = true
    case neg =>
      have hv' : v.truthy = false := by
        cases hvv : v.truthy
        · rfl
        · exact absurd hvv hv
      exact ⟨.undef, createProperty_falsy hv'⟩
    case pos =>
      by_cases hph : primHandled m.primitiveType = true
      case neg =>
        have hph' : primHandled m.primitiveType = false := by
          cases hh : primHandled m.primitiveType
          · rfl
          · exact absurd hh hph
        rw [createProperty_noPrim hph' hv]
        rcases hd : m.direction with _ | d <;> simp only [hd]
        · exact ⟨v, rfl⟩
        · exact ⟨mkId64 v, rfl⟩
      case pos =>
        rcases hpt : m.primitiveType with _ | t
        · rw [hpt] at hph
          simp [primHandled] at hph
        · cases t
          case boolean => exact ⟨v, createProperty_prim_pass hpt (by simp) hv⟩
          case double => exact ⟨v, createProperty_prim_pass hpt (by simp) hv⟩
          case integer => exact ⟨v, createProperty_prim_pass hpt (by simp) hv⟩
          case string => exact ⟨v, createProperty_prim_pass hpt (by simp) hv⟩
          case point2d =>
            rcases hmo : m.minOccurs with _ | k
            · rw [createProperty_point2d hpt hv]
              unfold PropertyMetaData.createValueOrArray
              simp only [hmo]
              exact ⟨point2dFromJSON v, rfl⟩
            · have harr : v.isArr = true := by
                rcases hsafe with hs | hs | hs | hs
                · rw [hs] at hmo
                  exact absurd hmo (by simp)
                · exact hs
                · simp [hv] at hs
                · exact absurd hpt hs.1
              cases v <;> simp [Val.isArr] at harr
              rw [createProperty_point2d hpt hv]
              unfold PropertyMetaData.createValueOrArray
              simp only [hmo]
              exact ⟨_, rfl⟩
          case point3d =>
            rcases hmo : m.minOccurs with _ | k
            · rw [createProperty_point3d hpt hv]
              unfold PropertyMetaData.createValueOrArray
              simp only [hmo]
              exact ⟨point3dFromJSON v, rfl⟩
            · have harr : v.isArr = true := by
                rcases hsafe with hs | hs | hs | hs
                · rw [hs] at hmo
                  exact absurd hmo (by simp)
                · exact hs
                · simp [hv] at hs
                · exact absurd hpt hs.2
              cases v <;> simp [Val.isArr] at harr
              rw [createProperty_point3d hpt hv]
              unfold PropertyMetaData.createValueOrArray
              simp only [hmo]
              exact ⟨_, rfl⟩
          all_goals
            rw [hpt] at hph
            simp [primHandled] at hph
  · intro hph hd hv
    rw [createProperty_noPrim hph hv]
    simp only [hd]

theorem createProperty_no_throw_unless_point_sequence_witness :
    (∃ w, PropertyMetaData.createProperty { structName := some "S" } (.jobj [("a", .jnum 1)]) =
      .ok w)
    ∧ PropertyMetaData.createProperty { structName := some "S" } (.jobj [("a", .jnum 1)]) =
      .ok (.jobj [("a", .jnum 1)]) := by
  have h := createProperty_no_throw_unless_point_sequence
      { structName := some "S" } (.jobj [("a", .jnum 1)])
  exact ⟨h.1 (Or.inl rfl), h.2 rfl rfl rfl⟩

/-- Claim C9 counterexample: a navigation direction does not override the
primitive-type conversion — with a handled primitive type (string) and a
present direction, the raw value passes through the primitive branch and is
not marshaled as an identifier. -/
theorem createProperty_prim_over_nav_cex :
    PropertyMetaData.createProperty
        { primitiveType := some .string, direction := some "forward" } (.jstr "0x1") =
      .ok (.jstr "0x1")
    ∧ Val.jstr "0x1" ≠ mkId64 (.jstr "0x1") := by
  exact ⟨rfl, by simp [mkId64]⟩

/-- Claim C9 (amended): navigation marshaling applies exactly when the
primitive-type branch does not return — the primitive type is absent,
uninitialized (falsy tag), or one of the switch's unhandled cases (binary,
date-time, long); then a present direction makes a truthy raw value an
identifier, whatever that unhandled primitive type is. -/
theorem createProperty_nav_fallthrough (m : PropertyMetaData) (v : Val) (d : String)
    (hd : m.direction = some d) (hph : primHandled m.primitiveType = false)
    (hv : v.truthy = true) :
    m.createProperty v = .ok (mkId64 v) := by
  rw [createProperty_noPrim hph hv]
  simp only [hd]

theorem createProperty_nav_fallthrough_witness :
    pmNav.createProperty (.jstr "0x1") = .ok (.id64 (.jstr "0x1"))
    ∧ PropertyMetaData.createProperty
        { primitiveType := some .long, direction := some "f" } (.jstr "0x2") =
      .ok (.id64 (.jstr "0x2")) := by
  have h1 := createProperty_nav_fallthrough pmNav (.jstr "0x1") "forward" rfl rfl rfl
  have h2 := createProperty_nav_fallthrough
      { primitiveType := some .long, direction := some "f" } (.jstr "0x2") "f" rfl rfl rfl
  exact ⟨h1, h2⟩

/-- Claim C10: a property name declared on several classes of the single-base
chain is visited once per declaring class (no deduplication), each time with
that class's own metadata; since the constructor assigns slots in visit order,
the final slot value is the bag value marshaled with the metadata of the
base-most declaring class. -/
theorem construct_shadowed_base_most_wins {reg : Registry} {c : String}
    {ms : List EntityMetaData} {fuel : Nat} {props : List (String × Val)}
    {n : String} {mB : PropertyMetaData} {e : Entity}
    (hchain : ResolvedChain reg c ms) (hfuel : ms.length ≤ fuel + 1)
    (hlast : lastDecl n (chainVisits false ms) = some mB)
    (hc : Entity.construct reg fuel c props = .ok e) :
    (chainVisits false ms).filter (fun p => p.1 == n) = perClassFilter n ms
    ∧ ∃ w, mB.createProperty (getVal props n) = .ok w ∧ getVal e.slots n = w := by
  refine ⟨chainVisits_filter n ms, ?_⟩
  unfold Entity.construct at hc
  have hfe := forEach_resolvedChain false hchain fuel hfuel
  simp only [hfe] at hc
  rcases hap : assignProps props [] (chainVisits false ms) with err | slots <;>
    simp only [hap] at hc
  · exact Except.noConfusion hc
  · simp only [Except.ok.injEq] at hc
    rcases assignProps_getVal_last hap hlast with ⟨w, hw, hs⟩
    refine ⟨w, hw, ?_⟩
    rw [← hc]
    exact hs

theorem construct_shadowed_base_most_wins_witness :
    ResolvedChain exReg "S:Derived" [metaDerived, metaBase]
    ∧ lastDecl "p" (chainVisits false [metaDerived, metaBase]) = some pmNav
    ∧ Entity.construct exReg 1 "S:Derived" [("p", .jstr "0x5")] = .ok exEntity10
    ∧ (chainVisits false [metaDerived, metaBase]).filter (fun p => p.1 == "p") =
        perClassFilter "p" [metaDerived, metaBase]
    ∧ ∃ w, pmNav.createProperty (getVal [("p", .jstr "0x5")] "p") = .ok w
        ∧ getVal exEntity10.slots "p" = w := by
  have hchain : ResolvedChain exReg "S:Derived" [metaDerived, metaBase] :=
    .step rfl rfl (.last rfl (Or.inl rfl))
  have h := construct_shadowed_base_most_wins hchain (by simp)
      (show lastDecl "p" (chainVisits false [metaDerived, metaBase]) = some pmNav from rfl)
      (show Entity.construct exReg 1 "S:Derived" [("p", .jstr "0x5")] = .ok exEntity10 from rfl)
  exact ⟨hchain, rfl, rfl, h.1, h.2⟩

/-- Claim C3 (amended): construct, serialize, re-construct, re-serialize —
whenever the second construction succeeds, the second serialization is equal
to the first (marshaling is idempotent, so re-marshaling every slot
reproduces it). The second construction can fail for a name redeclared along
the chain with incompatible point-sequence metadata, which is what keeps the
claim from holding unconditionally. -/
theorem construct_toJSON_roundtrip {reg : Registry} {fuel : Nat} {c : String}
    {bag j1 : List (String × Val)} {e1 e2 : Entity}
    (h1 : Entity.construct reg fuel c bag = .ok e1)
    (hj : Entity.toJSON fuel e1 = .ok j1)
    (h2 : Entity.construct reg fuel c j1 = .ok e2) :
    Entity.toJSON fuel e2 = .ok j1 := by
  unfold Entity.construct at h1 h2
  rcases hfe : EntityMetaData.forEach reg fuel c true false with err | visits <;>
    simp only [hfe] at h1 h2
  · exact Except.noConfusion h1
  · rcases hap1 : assignProps bag [] visits with err1 | slots1 <;>
      simp only [hap1, Except.ok.injEq] at h1
    · exact Except.noConfusion h1
    · rcases hap2 : assignProps j1 [] visits with err2 | slots2 <;>
        simp only [hap2, Except.ok.injEq] at h2
      · exact Except.noConfusion h2
      · subst h1
        subst h2
        unfold Entity.toJSON at hj ⊢
        simp only [hfe] at hj ⊢
        simp only [Except.ok.injEq] at hj
        subst hj
        congr 1
        apply emitProps_congr
        intro p hp
        have hnm : p.1 ∈ visits.map Prod.fst := List.mem_map_of_mem Prod.fst hp
        rcases lastDecl_some_of_mem hnm with ⟨mL, hld⟩
        rcases assignProps_getVal_last hap1 hld with ⟨w1, hw1, hs1⟩
        rcases assignProps_getVal_last hap2 hld with ⟨w2, hw2, hs2⟩
        have hj1 : getVal (emitProps slots1 visits
            (setVal [] "classFullName" (.jstr c))) p.1 = getVal slots1 p.1 :=
          getVal_emitProps_mem hnm
        rw [hj1, hs1] at hw2
        have hidem := createProperty_idem hw1
        rw [hidem] at hw2
        simp only [Except.ok.injEq] at hw2
        rw [hs2, hs1, hw2]

/-- Claim C3 counterexample: over the point schema `exRegPts` the first
construction and serialization succeed, but re-constructing from the
serialized output throws — the slot holds a scalar point (produced by the
base class's scalar conversion, which wins as the last visit), and the
derived class's point-sequence metadata cannot re-marshal a non-array. -/
theorem construct_toJSON_roundtrip_cex :
    Entity.construct exRegPts 1 "S:PD" [("p", .jarr [])] = .ok exEntityPt
    ∧ Entity.toJSON 1 exEntityPt = .ok exJsonPt
    ∧ Entity.construct exRegPts 1 "S:PD" exJsonPt = .error Err.typeError := by
  exact ⟨rfl, rfl, rfl⟩

theorem construct_toJSON_roundtrip_witness :
    Entity.construct exReg 1 "S:Derived" [("dp", .jnum 1)] = .ok exEntityW
    ∧ Entity.toJSON 1 exEntityW = .ok exJsonW
    ∧ Entity.construct exReg 1 "S:Derived" exJsonW = .ok exEntityW
    ∧ Entity.toJSON 1 exEntityW = .ok exJsonW := by
  refine ⟨rfl, rfl, rfl, ?_⟩
  exact construct_toJSON_roundtrip
    (show Entity.construct exReg 1 "S:Derived" [("dp", .jnum 1)] = .ok exEntityW from rfl)
    (show Entity.toJSON 1 exEntityW = .ok exJsonW from rfl)
    (show Entity.construct exReg 1 "S:Derived" exJsonW = .ok exEntityW from rfl)

/-- Claim C8 counterexample: a persistent entity whose boolean slot was
edited to `false` before the freeze — `copyForEdit` re-runs the marshaling
pipeline, which collapses the falsy slot value to `undefined`, so the copy's
slots are not deep-equal to the original's. -/
theorem copyForEdit_not_deep_equal_cex :
    Entity.construct exRegFlag 0 "S:F" [("flag", .jbool true)] = .ok exFlagEntity
    ∧ runOps exFlagEntity [.setSlot "flag" (.jbool false), .setPersistent] = exFlagPersisted
    ∧ exFlagPersisted.isPersistent = true
    ∧ Entity.copyForEdit 0 exFlagPersisted = .ok exFlagCopy
    ∧ getVal exFlagPersisted.slots "flag" = .jbool false
    ∧ getVal exFlagCopy.slots "flag" = .undef
    ∧ Val.jbool false ≠ Val.undef := by
  exact ⟨rfl, rfl, rfl, rfl, rfl, rfl, by simp⟩

/-- Claim C8 (amended): for an entity persisted as constructed (its slots are
unmodified marshaler outputs), `copyForEdit` returns, whenever the underlying
re-construction succeeds, a new instance of the same runtime class on the
same iModel, neither persistent nor frozen, whose slots read deep-equal to
the original's (re-marshaling is idempotent), and on which slot writes
succeed; a copy never shares state with the original (entities are separate
values), so mutating the copy cannot change the original. When the frozen
entity's slots were edited before the freeze, re-marshaling may alter them
and the copy need not be deep-equal. -/
theorem copyForEdit_of_constructed {reg : Registry} {fuel : Nat} {c : String}
    {bag : List (String × Val)} {e0 e1 : Entity}
    (h0 : Entity.construct reg fuel c bag = .ok e0)
    (h1 : Entity.copyForEdit fuel e0.setPersistent = .ok e1) :
    e1.classFullName = e0.classFullName
    ∧ e1.iModel = e0.iModel
    ∧ e1.persistent = false
    ∧ e1.frozen = false
    ∧ (∀ n, getVal e1.slots n = getVal e0.slots n)
    ∧ (∀ n v, (e1.applyOp (.setSlot n v)).2 = none) := by
  unfold Entity.construct at h0
  rcases hfe : EntityMetaData.forEach reg fuel c true false with err | visits <;>
    simp only [hfe] at h0
  · exact Except.noConfusion h0
  · rcases hap0 : assignProps bag [] visits with err0 | slots0 <;>
      simp only [hap0, Except.ok.injEq] at h0
    · exact Except.noConfusion h0
    · subst h0
      unfold Entity.copyForEdit Entity.construct at h1
      simp only [Entity.setPersistent] at h1
      simp only [hfe] at h1
      rcases hap1 : assignProps slots0 [] visits with err1 | slots1 <;>
        simp only [hap1, Except.ok.injEq] at h1
      · exact Except.noConfusion h1
      · subst h1
        refine ⟨rfl, rfl, rfl, rfl, ?_, fun n v => rfl⟩
        intro n
        by_cases hnm : n ∈ visits.map Prod.fst
        · rcases lastDecl_some_of_mem hnm with ⟨mL, hld⟩
          rcases assignProps_getVal_last hap0 hld with ⟨w0, hw0, hs0⟩
          rcases assignProps_getVal_last hap1 hld with ⟨w1, hw1, hs1⟩
          rw [hs0] at hw1
          have hidem := createProperty_idem hw0
          rw [hidem] at hw1
          simp only [Except.ok.injEq] at hw1
          simp only [hs1, hs0, hw1]
        · have hld : lastDecl n visits = none := by
            rcases hll : lastDecl n visits with _ | mX
            · rfl
            · exact absurd (mem_of_lastDecl_some hll) hnm
          rw [assignProps_getVal_none hap0 hld, assignProps_getVal_none hap1 hld]

theorem copyForEdit_of_constructed_witness :
    Entity.construct exRegFlag 0 "S:F" [("flag", .jbool true)] = .ok exFlagEntity
    ∧ Entity.copyForEdit 0 exFlagEntity.setPersistent = .ok exFlagEntity
    ∧ exFlagEntity.persistent = false
    ∧ (∀ n, getVal exFlagEntity.slots n = getVal exFlagEntity.slots n) := by
  have h := copyForEdit_of_constructed
    (show Entity.construct exRegFlag 0 "S:F" [("flag", .jbool true)] = .ok exFlagEntity from rfl)
    (show Entity.copyForEdit 0 exFlagEntity.setPersistent = .ok exFlagEntity from rfl)
  exact ⟨rfl, rfl, h.2.2.1, h.2.2.2.2.1⟩

end IModelJs
